import Mathlib

/-!
Verification of the FX-Trading data pipeline (src/data.py and
src/data_fetcher/fetch_fx_data.py) against its specification.

The two source files are near-identical.  Both expose
`fetch_usdjpy_data` (HTTP fetch, response classification, normalization
of the JSON time series into an OHLCV table, sort by date, write to
disk) and `load_usdjpy_data` (read the persisted file back).

Shallow embedding decisions, each noted again at the definition it
concerns:
* strings are `List Char` (`Str`), so that parsing and rendering can be
  reasoned about by structural induction;
* `pd.to_datetime` on the upstream `YYYY-MM-DD` keys is embedded as
  `parseDate`, a parser for exactly the zero-padded ISO form with the
  month in 1..12 and the day in 1..31 (calendar-length and leap-year
  refinements of `to_datetime`'s rejection set are not modelled; no
  claim depends on them);
* `pd.to_numeric` on the non-negative decimal price strings is embedded
  as `parseDec`, producing an exact decimal `Decimal` (mantissa and
  exponent).  The float64 the code actually stores is modelled as this
  exact decimal: pandas' float repr round-trips exactly through text,
  which is what the exactness of `Decimal` captures;
* the on-disk CSV is embedded at the cell level: a header row and data
  rows of cell strings (`CsvFile`); the filesystem is a partial map from
  path to file;
* pandas' `sort_values('Date')` is embedded as `List.insertionSort` on
  the date key.  On the function's actual domain — mappings, hence
  distinct date keys, hence distinct parsed dates — every ascending
  sort produces the same list, which is proved below
  (`normalizeRaw_sort_stable`), so the choice of sorting algorithm is
  immaterial to the embedding's faithfulness.
-/

/-- Strings as character lists, for inductive reasoning. -/
abbrev Str := List Char

/-! ### Digit strings: rendering and parsing of naturals -/

/-- The character for a single decimal digit (`0 ≤ n ≤ 9`). -/
def digitChar (n : Nat) : Char := Char.ofNat (48 + n)

/-- The numeric value of a digit character. -/
def charVal (c : Char) : Nat := c.toNat - 48

/-- Is `c` one of `'0'..'9'`? -/
def isDigitCh (c : Char) : Bool := 48 ≤ c.toNat && c.toNat ≤ 57

/-- All characters of `l` are decimal digits. -/
def allDigits (l : Str) : Bool := l.all isDigitCh

/-- Fuel-bounded rendering of a natural in base 10, most significant
digit first.  Fuel `n + 1` always suffices. -/
def renderNatAux : Nat → Nat → Str
  | 0, _ => []
  | fuel + 1, n =>
    if n < 10 then [digitChar n]
    else renderNatAux fuel (n / 10) ++ [digitChar (n % 10)]

/-- Decimal rendering of a natural number (no sign, no leading zeros,
`"0"` for zero). -/
def renderNat (n : Nat) : Str := renderNatAux (n + 1) n

/-- Value of a digit string, most significant digit first (the usual
left fold).  On non-digit characters it is garbage; every use guards
with `allDigits`. -/
def parseNat (l : Str) : Nat := l.foldl (fun a c => a * 10 + charVal c) 0

/-- Left-pad a digit string with `'0'` up to width `w`. -/
def padZeros (w : Nat) (l : Str) : Str :=
  List.replicate (w - l.length) '0' ++ l

theorem charVal_digitChar {n : Nat} (h : n < 10) : charVal (digitChar n) = n := by
  interval_cases n <;> decide

theorem isDigitCh_digitChar {n : Nat} (h : n < 10) : isDigitCh (digitChar n) = true := by
  interval_cases n <;> decide

theorem charVal_le_of_isDigitCh {c : Char} (h : isDigitCh c = true) : charVal c ≤ 9 := by
  simp only [isDigitCh, Bool.and_eq_true, decide_eq_true_eq] at h
  simp only [charVal]
  omega

theorem digitChar_injOn {m n : Nat} (hm : m < 10) (hn : n < 10)
    (h : digitChar m = digitChar n) : m = n := by
  have := charVal_digitChar hm
  have := charVal_digitChar hn
  rw [h] at *
  omega

/-- The defining left-fold of `parseNat`, started from an arbitrary
accumulator. -/
theorem parseNat_foldl (l : Str) :
    ∀ a : Nat, l.foldl (fun a c => a * 10 + charVal c) a
      = a * 10 ^ l.length + parseNat l := by
  induction l with
  | nil => intro a; simp [parseNat]
  | cons c t ih =>
    intro a
    show t.foldl _ (a * 10 + charVal c) = _
    rw [ih (a * 10 + charVal c)]
    have h2 : parseNat (c :: t) = charVal c * 10 ^ t.length + parseNat t := by
      show t.foldl _ (0 * 10 + charVal c) = _
      rw [ih (0 * 10 + charVal c)]
      ring
    rw [h2]
    simp [List.length_cons, pow_succ]
    ring

theorem parseNat_cons (c : Char) (t : Str) :
    parseNat (c :: t) = charVal c * 10 ^ t.length + parseNat t := by
  show t.foldl _ (0 * 10 + charVal c) = _
  rw [parseNat_foldl t (0 * 10 + charVal c)]
  ring

theorem parseNat_lt {l : Str} (h : allDigits l = true) :
    parseNat l < 10 ^ l.length := by
  induction l with
  | nil => simp [parseNat]
  | cons c t ih =>
    simp only [allDigits, List.all_cons, Bool.and_eq_true] at h
    have hc : charVal c ≤ 9 := charVal_le_of_isDigitCh h.1
    have ht : parseNat t < 10 ^ t.length := ih h.2
    rw [parseNat_cons]
    have : charVal c * 10 ^ t.length ≤ 9 * 10 ^ t.length :=
      Nat.mul_le_mul_right _ hc
    calc charVal c * 10 ^ t.length + parseNat t
        < charVal c * 10 ^ t.length + 10 ^ t.length := by omega
      _ ≤ 9 * 10 ^ t.length + 10 ^ t.length := by omega
      _ = 10 ^ (t.length + 1) := by ring
      _ = 10 ^ (c :: t).length := by simp

theorem parseNat_append (l₁ l₂ : Str) :
    parseNat (l₁ ++ l₂) = parseNat l₁ * 10 ^ l₂.length + parseNat l₂ := by
  show (l₁ ++ l₂).foldl _ 0 = _
  rw [List.foldl_append]
  exact parseNat_foldl l₂ _

theorem parseNat_renderNatAux : ∀ fuel n, n < fuel →
    parseNat (renderNatAux fuel n) = n := by
  intro fuel
  induction fuel with
  | zero => intro n h; omega
  | succ f ih =>
    intro n h
    by_cases h10 : n < 10
    · simp [renderNatAux, h10, parseNat_cons, parseNat, charVal_digitChar h10]
    · have hdiv : n / 10 < f := by omega
      simp only [renderNatAux, if_neg h10]
      rw [parseNat_append, ih _ hdiv]
      have hm : n % 10 < 10 := Nat.mod_lt _ (by omega)
      simp [parseNat_cons, parseNat, charVal_digitChar hm]
      omega

theorem parseNat_renderNat (n : Nat) : parseNat (renderNat n) = n :=
  parseNat_renderNatAux (n + 1) n (Nat.lt_succ_self n)

theorem allDigits_renderNatAux : ∀ fuel n, allDigits (renderNatAux fuel n) = true := by
  intro fuel
  induction fuel with
  | zero => intro n; rfl
  | succ f ih =>
    intro n
    by_cases h10 : n < 10
    · simp [renderNatAux, h10, allDigits, isDigitCh_digitChar h10]
    · have hm : n % 10 < 10 := Nat.mod_lt _ (by omega)
      have := ih (n / 10)
      simp only [renderNatAux, if_neg h10, allDigits, List.all_append] at *
      simp [this, allDigits, isDigitCh_digitChar hm]

theorem allDigits_renderNat (n : Nat) : allDigits (renderNat n) = true :=
  allDigits_renderNatAux (n + 1) n

theorem renderNatAux_ne_nil : ∀ fuel n, 0 < fuel → renderNatAux fuel n ≠ [] := by
  intro fuel n h
  match fuel with
  | f + 1 =>
    by_cases h10 : n < 10
    · simp [renderNatAux, h10]
    · simp [renderNatAux, h10]

theorem renderNat_ne_nil (n : Nat) : renderNat n ≠ [] :=
  renderNatAux_ne_nil (n + 1) n (Nat.succ_pos n)

theorem renderNatAux_length_le : ∀ fuel n k, n < fuel → n < 10 ^ k → 1 ≤ k →
    (renderNatAux fuel n).length ≤ k := by
  intro fuel
  induction fuel with
  | zero => intro n k h; omega
  | succ f ih =>
    intro n k h hk h1
    by_cases h10 : n < 10
    · simp only [renderNatAux, if_pos h10, List.length_cons, List.length_nil]
      omega
    · have hk2 : 2 ≤ k := by
        by_contra hc
        have : k = 1 := by omega
        subst this
        simp at hk
        omega
      have hdiv : n / 10 < f := by omega
      have hdivk : n / 10 < 10 ^ (k - 1) := by
        have : n < 10 * 10 ^ (k - 1) := by
          have : 10 * 10 ^ (k - 1) = 10 ^ k := by
            have : k - 1 + 1 = k := by omega
            calc 10 * 10 ^ (k - 1) = 10 ^ (k - 1 + 1) := by ring
              _ = 10 ^ k := by rw [this]
          omega
        omega
      have := ih (n / 10) (k - 1) hdiv hdivk (by omega)
      simp only [renderNatAux, if_neg h10, List.length_append, List.length_cons,
        List.length_nil]
      omega

theorem renderNat_length_le {n k : Nat} (h : n < 10 ^ k) (hk : 1 ≤ k) :
    (renderNat n).length ≤ k :=
  renderNatAux_length_le (n + 1) n k (Nat.lt_succ_self n) h hk

theorem parseNat_replicate_zero_append (k : Nat) (l : Str) :
    parseNat (List.replicate k '0' ++ l) = parseNat l := by
  rw [parseNat_append]
  have : parseNat (List.replicate k '0') = 0 := by
    induction k with
    | zero => rfl
    | succ m ih =>
      rw [List.replicate_succ, parseNat_cons, ih]
      have h0 : charVal '0' = 0 := by decide
      rw [h0]
      simp
  rw [this]
  simp

theorem parseNat_padZeros (w : Nat) (l : Str) :
    parseNat (padZeros w l) = parseNat l :=
  parseNat_replicate_zero_append _ _

theorem allDigits_padZeros {w : Nat} {l : Str} (h : allDigits l = true) :
    allDigits (padZeros w l) = true := by
  simp only [padZeros, allDigits, List.all_append]
  simp only [allDigits] at h
  rw [h]
  have : (List.replicate (w - l.length) '0').all isDigitCh = true := by
    induction (w - l.length) with
    | zero => rfl
    | succ m ih => rw [List.replicate_succ]; simp [ih]; rfl
  simp [this]

theorem length_padZeros {w : Nat} {l : Str} (h : l.length ≤ w) :
    (padZeros w l).length = w := by
  simp [padZeros]
  omega

theorem padZeros_ne_nil {w : Nat} {l : Str} (h : l ≠ []) : padZeros w l ≠ [] := by
  simp [padZeros, h]

/-- Two digit strings of equal length with equal value are equal. -/
theorem parseNat_inj : ∀ l₁ l₂ : Str, allDigits l₁ = true → allDigits l₂ = true →
    l₁.length = l₂.length → parseNat l₁ = parseNat l₂ → l₁ = l₂ := by
  intro l₁
  induction l₁ with
  | nil =>
    intro l₂ _ _ hlen _
    cases l₂ with
    | nil => rfl
    | cons c t => simp at hlen
  | cons c₁ t₁ ih =>
    intro l₂ hd₁ hd₂ hlen hval
    cases l₂ with
    | nil => simp at hlen
    | cons c₂ t₂ =>
      simp only [allDigits, List.all_cons, Bool.and_eq_true] at hd₁ hd₂
      simp only [List.length_cons, Nat.succ_inj] at hlen
      rw [parseNat_cons, parseNat_cons, hlen] at hval
      have hb₁ : parseNat t₁ < 10 ^ t₂.length := hlen ▸ parseNat_lt hd₁.2
      have hb₂ : parseNat t₂ < 10 ^ t₂.length := parseNat_lt hd₂.2
      have hv₁ : charVal c₁ ≤ 9 := charVal_le_of_isDigitCh hd₁.1
      have hv₂ : charVal c₂ ≤ 9 := charVal_le_of_isDigitCh hd₂.1
      have hpos : 0 < 10 ^ t₂.length := Nat.pos_pow_of_pos _ (by omega)
      have hcv : charVal c₁ = charVal c₂ := by
        by_contra hne
        rcases Nat.lt_or_ge (charVal c₁) (charVal c₂) with hlt | hge
        · nlinarith
        · have : charVal c₂ < charVal c₁ := by omega
          nlinarith
      have hc : c₁ = c₂ := by
        simp only [isDigitCh, Bool.and_eq_true, decide_eq_true_eq] at hd₁ hd₂
        have h₁ := hd₁.1
        have h₂ := hd₂.1
        simp only [charVal] at hcv
        have : c₁.toNat = c₂.toNat := by omega
        exact Char.eq_of_val_eq (UInt32.toNat.inj this)
      subst hc
      have ht : t₁ = t₂ := ih t₂ hd₁.2 hd₂.2 hlen (by omega)
      rw [ht]

/-! ### Calendar dates

`Date` embeds the (normalized, midnight) `pd.Timestamp` values the code
stores in the `Date` column.  `parseDate` embeds `pd.to_datetime`
restricted to the zero-padded `YYYY-MM-DD` strings that the upstream
API delivers as keys and that `to_csv` writes back; out-of-range month
or day values are rejected as `to_datetime` rejects them (finer
calendar rules such as month lengths are not modelled; no claim
depends on them). -/

structure Date where
  year : Nat
  month : Nat
  day : Nat
deriving DecidableEq, Repr

/-- Chronological sort key of a date: pandas sorts the `Date` column
chronologically, which for in-range dates coincides with the
lexicographic order on (year, month, day). -/
def dateKey (d : Date) : Nat := (d.year * 100 + d.month) * 100 + d.day

/-- The dates representable in a `YYYY-MM-DD` cell (what
`pd.to_datetime` accepts in the modelled fragment). -/
def Date.valid (d : Date) : Prop :=
  d.year < 10000 ∧ 1 ≤ d.month ∧ d.month ≤ 12 ∧ 1 ≤ d.day ∧ d.day ≤ 31

instance (d : Date) : Decidable d.valid :=
  inferInstanceAs (Decidable (_ ∧ _ ∧ _ ∧ _ ∧ _))

/-- How the code's date values print back to text (`to_csv` on the
parsed `Date` column): zero-padded ISO `YYYY-MM-DD`. -/
def renderDate (d : Date) : Str :=
  padZeros 4 (renderNat d.year) ++
    '-' :: (padZeros 2 (renderNat d.month) ++ '-' :: padZeros 2 (renderNat d.day))

/-- Embedding of `pd.to_datetime` on `YYYY-MM-DD` strings. -/
def parseDate (l : Str) : Option Date :=
  match l.drop 4 with
  | c₁ :: r =>
    match r.drop 2 with
    | c₂ :: ds =>
      if c₁ = '-' ∧ c₂ = '-' ∧
         allDigits (l.take 4) = true ∧ (l.take 4).length = 4 ∧
         allDigits (r.take 2) = true ∧ (r.take 2).length = 2 ∧
         allDigits ds = true ∧ ds.length = 2 ∧
         1 ≤ parseNat (r.take 2) ∧ parseNat (r.take 2) ≤ 12 ∧
         1 ≤ parseNat ds ∧ parseNat ds ≤ 31
      then some ⟨parseNat (l.take 4), parseNat (r.take 2), parseNat ds⟩
      else none
    | [] => none
  | [] => none

theorem dateKey_inj {d₁ d₂ : Date} (h₁ : d₁.valid) (h₂ : d₂.valid)
    (h : dateKey d₁ = dateKey d₂) : d₁ = d₂ := by
  obtain ⟨y₁, m₁, k₁⟩ := d₁
  obtain ⟨y₂, m₂, k₂⟩ := d₂
  simp only [Date.valid] at h₁ h₂
  simp only [dateKey] at h
  simp only [Date.mk.injEq]
  omega

/-- A fixed-width digit rendering of a parsed component is the original
component string. -/
theorem padZeros_renderNat_parseNat {l : Str} {w : Nat} (hd : allDigits l = true)
    (hw : l.length = w) (h1 : 1 ≤ w) :
    padZeros w (renderNat (parseNat l)) = l := by
  have hlt : parseNat l < 10 ^ w := hw ▸ parseNat_lt hd
  have hlen : (renderNat (parseNat l)).length ≤ w := renderNat_length_le hlt h1
  apply parseNat_inj
  · exact allDigits_padZeros (allDigits_renderNat _)
  · exact hd
  · rw [length_padZeros hlen, hw]
  · rw [parseNat_padZeros, parseNat_renderNat]

/-- Successful parses are exactly the canonical renderings: a string
accepted by `parseDate` is the zero-padded ISO form of the in-range
date it denotes. -/
theorem parseDate_canon {l : Str} {d : Date} (h : parseDate l = some d) :
    l = renderDate d ∧ d.valid := by
  unfold parseDate at h
  split at h
  · rename_i c₁ r h4
    split at h
    · rename_i c₂ ds h7
      split at h
      · rename_i hcond
        obtain ⟨hc, hc₂, hdy, hly, hdm, hlm, hdd, hld, hm1, hm12, hd1, hd31⟩ := hcond
        subst hc
        subst hc₂
        cases h
        constructor
        · have e₁ : l = l.take 4 ++ '-' :: r := by
            rw [← h4, List.take_append_drop]
          have e₂ : r = r.take 2 ++ '-' :: ds := by
            rw [← h7, List.take_append_drop]
          rw [renderDate]
          simp only []
          rw [padZeros_renderNat_parseNat hdy hly (by omega),
              padZeros_renderNat_parseNat hdm hlm (by omega),
              padZeros_renderNat_parseNat hdd hld (by omega)]
          calc l = l.take 4 ++ '-' :: r := e₁
            _ = l.take 4 ++ '-' :: (r.take 2 ++ '-' :: ds) := by rw [← e₂]
        · refine ⟨?_, hm1, hm12, hd1, hd31⟩
          have := parseNat_lt hdy
          rw [hly] at this
          exact this
      · exact absurd h (by simp)
    · exact absurd h (by simp)
  · exact absurd h (by simp)

/-- Rendering a representable date back to text parses to the same
date: the `to_csv`/`to_datetime` leg of the round trip. -/
theorem parseDate_renderDate {d : Date} (hv : d.valid) :
    parseDate (renderDate d) = some d := by
  obtain ⟨y, m, k⟩ := d
  obtain ⟨hy, hm1, hm12, hk1, hk31⟩ := hv
  have hy : y < 10000 := hy
  have hm1 : 1 ≤ m := hm1
  have hm12 : m ≤ 12 := hm12
  have hk1 : 1 ≤ k := hk1
  have hk31 : k ≤ 31 := hk31
  have hy4 : y < 10 ^ 4 := by norm_num; omega
  have ly : (padZeros 4 (renderNat y)).length = 4 :=
    length_padZeros (renderNat_length_le hy4 (by omega))
  have hm100 : m < 10 ^ 2 := by norm_num; omega
  have hk100 : k < 10 ^ 2 := by norm_num; omega
  have lm : (padZeros 2 (renderNat m)).length = 2 :=
    length_padZeros (renderNat_length_le hm100 (by omega))
  have lk : (padZeros 2 (renderNat k)).length = 2 :=
    length_padZeros (renderNat_length_le hk100 (by omega))
  have h4 : (renderDate ⟨y, m, k⟩).drop 4
      = '-' :: (padZeros 2 (renderNat m) ++ '-' :: padZeros 2 (renderNat k)) := by
    rw [renderDate]
    exact List.drop_left' ly
  have ht4 : (renderDate ⟨y, m, k⟩).take 4 = padZeros 4 (renderNat y) := by
    rw [renderDate]
    exact List.take_left' ly
  have h7 : (padZeros 2 (renderNat m) ++ '-' :: padZeros 2 (renderNat k)).drop 2
      = '-' :: padZeros 2 (renderNat k) := List.drop_left' lm
  have ht7 : (padZeros 2 (renderNat m) ++ '-' :: padZeros 2 (renderNat k)).take 2
      = padZeros 2 (renderNat m) := List.take_left' lm
  unfold parseDate
  rw [h4]
  split
  · rename_i c₁ r heq
    injection heq with hc hr
    subst hc
    subst hr
    rw [h7]
    split
    · rename_i c₂ ds heq₂
      injection heq₂ with hc₂ hds
      subst hc₂
      subst hds
      rw [ht4, ht7]
      rw [if_pos]
      · rw [parseNat_padZeros, parseNat_renderNat, parseNat_padZeros,
          parseNat_renderNat, parseNat_padZeros, parseNat_renderNat]
      · refine ⟨rfl, rfl, allDigits_padZeros (allDigits_renderNat _), ly,
          allDigits_padZeros (allDigits_renderNat _), lm,
          allDigits_padZeros (allDigits_renderNat _), lk, ?_, ?_, ?_, ?_⟩ <;>
          rw [parseNat_padZeros, parseNat_renderNat] <;> omega
    · rename_i heq₂
      simp at heq₂
  · rename_i heq
    simp at heq

/-- Distinct accepted date strings denote distinct dates. -/
theorem parseDate_inj {l₁ l₂ : Str} {d : Date}
    (h₁ : parseDate l₁ = some d) (h₂ : parseDate l₂ = some d) : l₁ = l₂ := by
  rw [(parseDate_canon h₁).1, (parseDate_canon h₂).1]

/-- Every parsed date is in range. -/
theorem parseDate_valid {l : Str} {d : Date} (h : parseDate l = some d) : d.valid :=
  (parseDate_canon h).2

/-! ### Decimal numbers

`Decimal` embeds the numeric values of the four price columns.  The
code stores them as float64 (`pd.to_numeric`) and writes them back
with `to_csv`; since pandas' float-to-text repr round-trips exactly,
the embedding keeps the exact decimal (mantissa `mant` and decimal
exponent `exp`, denoting `mant / 10 ^ exp`).  `parseDec` embeds
`pd.to_numeric` restricted to the unsigned fixed-point forms the
upstream API and `to_csv` produce (digits, optionally a dot between
two nonempty digit runs; signs, exponent notation and bare leading or
trailing dots do not occur in this pipeline and are not modelled). -/

structure Decimal where
  mant : Nat
  exp : Nat
deriving DecidableEq, Repr

/-- `c` is not the decimal dot. -/
def notDot (c : Char) : Bool := c != '.'

/-- Decimal rendering: mantissa digits with the dot inserted `exp`
places from the right; pure integer when `exp = 0`. -/
def renderDec (q : Decimal) : Str :=
  if q.exp = 0 then renderNat q.mant
  else renderNat (q.mant / 10 ^ q.exp) ++
    '.' :: padZeros q.exp (renderNat (q.mant % 10 ^ q.exp))

/-- Embedding of `pd.to_numeric` on the decimal strings of this
pipeline. -/
def parseDec (l : Str) : Option Decimal :=
  match l.dropWhile notDot with
  | [] => if l ≠ [] ∧ allDigits l = true then some ⟨parseNat l, 0⟩ else none
  | _ :: fp =>
    if l.takeWhile notDot ≠ [] ∧ fp ≠ [] ∧
       allDigits (l.takeWhile notDot) = true ∧ allDigits fp = true
    then some ⟨parseNat (l.takeWhile notDot) * 10 ^ fp.length + parseNat fp, fp.length⟩
    else none

theorem notDot_of_isDigitCh {c : Char} (h : isDigitCh c = true) : notDot c = true := by
  simp only [isDigitCh, Bool.and_eq_true, decide_eq_true_eq] at h
  simp only [notDot, bne_iff_ne, ne_eq]
  intro hc
  subst hc
  simp at h

theorem takeWhile_notDot_of_digits {l : Str} (h : allDigits l = true) :
    l.takeWhile notDot = l := by
  have hmem : ∀ a ∈ l, notDot a = true := by
    intro a ha
    exact notDot_of_isDigitCh (List.all_eq_true.mp h a ha)
  have := @List.takeWhile_append_of_pos Char notDot l [] hmem
  simpa using this

theorem dropWhile_notDot_of_digits {l : Str} (h : allDigits l = true) :
    l.dropWhile notDot = [] := by
  have hmem : ∀ a ∈ l, notDot a = true := by
    intro a ha
    exact notDot_of_isDigitCh (List.all_eq_true.mp h a ha)
  have := @List.dropWhile_append_of_pos Char notDot l [] hmem
  simpa using this

theorem takeWhile_notDot_dotted {ip fp : Str} (h : allDigits ip = true) :
    (ip ++ '.' :: fp).takeWhile notDot = ip := by
  have hmem : ∀ a ∈ ip, notDot a = true := by
    intro a ha
    exact notDot_of_isDigitCh (List.all_eq_true.mp h a ha)
  rw [List.takeWhile_append_of_pos hmem]
  simp [List.takeWhile_cons, notDot]

theorem dropWhile_notDot_dotted {ip fp : Str} (h : allDigits ip = true) :
    (ip ++ '.' :: fp).dropWhile notDot = '.' :: fp := by
  have hmem : ∀ a ∈ ip, notDot a = true := by
    intro a ha
    exact notDot_of_isDigitCh (List.all_eq_true.mp h a ha)
  rw [List.dropWhile_append_of_pos hmem]
  simp [List.dropWhile_cons, notDot]

/-- Rendering a decimal back to text parses to the same decimal: the
numeric leg of the persist/load round trip. -/
theorem parseDec_renderDec (q : Decimal) : parseDec (renderDec q) = some q := by
  obtain ⟨m, e⟩ := q
  cases e with
  | zero =>
    have hr : renderDec ⟨m, 0⟩ = renderNat m := by
      simp [renderDec]
    rw [hr]
    unfold parseDec
    rw [dropWhile_notDot_of_digits (allDigits_renderNat m)]
    split
    · rw [if_pos ⟨renderNat_ne_nil m, allDigits_renderNat m⟩, parseNat_renderNat]
    · rename_i heq
      simp at heq
  | succ e =>
    have hr : renderDec ⟨m, e + 1⟩
        = renderNat (m / 10 ^ (e + 1)) ++
          '.' :: padZeros (e + 1) (renderNat (m % 10 ^ (e + 1))) := by
      rw [renderDec]
      simp
    rw [hr]
    have hmod : m % 10 ^ (e + 1) < 10 ^ (e + 1) :=
      Nat.mod_lt _ (Nat.pos_pow_of_pos _ (by omega))
    have lfp : (padZeros (e + 1) (renderNat (m % 10 ^ (e + 1)))).length = e + 1 :=
      length_padZeros (renderNat_length_le hmod (by omega))
    have hdfp : allDigits (padZeros (e + 1) (renderNat (m % 10 ^ (e + 1)))) = true :=
      allDigits_padZeros (allDigits_renderNat _)
    unfold parseDec
    rw [dropWhile_notDot_dotted (allDigits_renderNat _)]
    split
    · rename_i heq
      simp at heq
    · rename_i heq
      injection heq with hc hfp
      subst hfp
      rw [takeWhile_notDot_dotted (allDigits_renderNat _)]
      rw [if_pos ⟨renderNat_ne_nil _, padZeros_ne_nil (renderNat_ne_nil _),
        allDigits_renderNat _, hdfp⟩]
      rw [lfp, parseNat_padZeros, parseNat_renderNat, parseNat_renderNat]
      rw [Nat.div_add_mod']

/-- Decimal rendering is injective: the persisted text determines the
in-memory value. -/
theorem renderDec_inj {q₁ q₂ : Decimal} (h : renderDec q₁ = renderDec q₂) : q₁ = q₂ := by
  have h₁ := parseDec_renderDec q₁
  have h₂ := parseDec_renderDec q₂
  rw [h] at h₁
  rw [h₁] at h₂
  exact Option.some.inj h₂

/-- Natural rendering is injective (used for the Volume column). -/
theorem renderNat_inj {n₁ n₂ : Nat} (h : renderNat n₁ = renderNat n₂) : n₁ = n₂ := by
  have := parseNat_renderNat n₁
  rw [h, parseNat_renderNat] at this
  omega

/-- Date rendering is injective on representable dates. -/
theorem renderDate_inj {d₁ d₂ : Date} (h₁ : d₁.valid) (h₂ : d₂.valid)
    (h : renderDate d₁ = renderDate d₂) : d₁ = d₂ := by
  have e₁ := parseDate_renderDate h₁
  have e₂ := parseDate_renderDate h₂
  rw [h] at e₁
  rw [e₁] at e₂
  exact Option.some.inj e₂

/-! ### Data model

`RawRecord`/`RawQuote` embed the upstream JSON time series: the Python
dict maps date strings to records of four string-encoded prices, and
iterates in insertion order, which `pd.DataFrame.from_dict` preserves —
hence an association list in encounter order.  `Candle` is one row of
the normalized frame (src/data.py lines 47-68): parsed date, the four
prices, and the constant-zero `Volume` column (`df['Volume'] = 0`,
an integer in the code, hence `Nat` here). -/

structure RawRecord where
  open_ : Str
  high : Str
  low : Str
  close : Str
deriving DecidableEq, Repr

/-- The upstream `Time Series FX (Daily)` payload, in encounter order. -/
abbrev RawQuote := List (Str × RawRecord)

structure Candle where
  date : Date
  open_ : Decimal
  high : Decimal
  low : Decimal
  close : Decimal
  volume : Nat
deriving DecidableEq, Repr

/-- Fallible elementwise map: `none` as soon as one element fails, the
full list otherwise.  Embeds the all-or-nothing behavior of the pandas
column conversions (one bad value raises, aborting the whole frame). -/
def mapOpt (f : α → Option β) : List α → Option (List β)
  | [] => some []
  | a :: t =>
    match f a, mapOpt f t with
    | some b, some bs => some (b :: bs)
    | _, _ => none

/-- One row of the conversion pipeline of src/data.py lines 49-65:
date key via `pd.to_datetime`, the four prices via `pd.to_numeric`,
`Volume` set to the integer 0. -/
def parseCandle (e : Str × RawRecord) : Option Candle :=
  match parseDate e.1, parseDec e.2.open_, parseDec e.2.high,
      parseDec e.2.low, parseDec e.2.close with
  | some d, some o, some h, some l, some c => some ⟨d, o, h, l, c, 0⟩
  | _, _, _, _, _ => none

/-- The comparison behind `df.sort_values('Date')`: ascending
chronological order. -/
def candleLe (a b : Candle) : Prop := dateKey a.date ≤ dateKey b.date

instance : DecidableRel candleLe := fun a b => Nat.decLe (dateKey a.date) (dateKey b.date)

instance : IsTotal Candle candleLe := ⟨fun _ _ => Nat.le_total _ _⟩

instance : IsTrans Candle candleLe := ⟨fun _ _ _ h₁ h₂ => Nat.le_trans h₁ h₂⟩

/-- The spec's `normalize`: parse every entry of the raw mapping into a
Candle (any failure aborting the invocation) and sort ascending by
date — src/data.py lines 47-68.

The empty payload is an error path, not an empty Series:
`pd.DataFrame.from_dict({}, orient='index')` yields a frame with no
columns, `reset_index` then yields exactly one, and the assignment
`df.columns = ['Date','Open','High','Low','Close']` of five names to
that one-column axis raises `ValueError`, which the enclosing
`except` turns into `return None`.  Hence `none` at `[]`. -/
def normalizeRaw (raw : RawQuote) : Option (List Candle) :=
  if raw = [] then none
  else (mapOpt parseCandle raw).map (List.insertionSort candleLe)

/-- A well-formed upstream payload: a genuine mapping (distinct date
keys) whose every entry parses. -/
def validRaw (raw : RawQuote) : Prop :=
  (raw.map Prod.fst).Nodup ∧ ∀ e ∈ raw, (parseCandle e).isSome = true

instance (raw : RawQuote) : Decidable (validRaw raw) := by
  unfold validRaw
  infer_instance

/-! ### Fetch: response classification

`ApiResponse` embeds the decoded JSON object by the three fields the
code inspects: presence of `"Error Message"`, presence of `"Note"`,
and the `"Time Series FX (Daily)"` payload (src/data.py lines 33-48).
Other keys of the object are never read and are not modelled.  The
spec's error taxonomy names the four non-success outcomes; in the code
all of them surface as `return None` (plus a printed cause), so the
constructors below stand for "this return-None path was taken". -/

structure ApiResponse where
  errorMessage : Option Str
  note : Option Str
  timeSeries : Option RawQuote

inductive FetchResult where
  | ok : List Candle → FetchResult
  | upstreamError : FetchResult
  | rateLimitedError : FetchResult
  | unexpectedResponseError : FetchResult
  | malformedError : FetchResult
deriving DecidableEq, Repr

/-- Embedding of `fetch_usdjpy_data` (src/data.py lines 33-84) after
the HTTP exchange: classify the response, then normalize the payload.
The `except` clause catches conversion failures mid-normalization and
returns `None`; that path is `malformedError` (the spec's
`MalformedDateError`/`MalformedNumberError`). -/
def fetchUsdjpyData (r : ApiResponse) : FetchResult :=
  match r.errorMessage with
  | some _ => .upstreamError
  | none =>
    match r.note with
    | some _ => .rateLimitedError
    | none =>
      match r.timeSeries with
      | none => .unexpectedResponseError
      | some raw =>
        match normalizeRaw raw with
        | some s => .ok s
        | none => .malformedError

/-! ### Persistence

The CSV file of `df.to_csv(filename, index=False)` is embedded at the
cell level: one header row and the data rows, all cells text.  The
filesystem is a partial map from path to file; writing overwrites. -/

structure CsvFile where
  header : List Str
  rows : List (List Str)
deriving DecidableEq, Repr

def FileSystem := Str → Option CsvFile

def dateColName : Str := ['D', 'a', 't', 'e']

/-- The column set and order the code writes:
`[Date, Open, High, Low, Close, Volume]`. -/
def stdHeader : List Str :=
  [['D', 'a', 't', 'e'],
   ['O', 'p', 'e', 'n'],
   ['H', 'i', 'g', 'h'],
   ['L', 'o', 'w'],
   ['C', 'l', 'o', 's', 'e'],
   ['V', 'o', 'l', 'u', 'm', 'e']]

/-- One CSV data row of `to_csv`: the date back in ISO text, the four
prices and the volume in decimal text. -/
def renderRow (c : Candle) : List Str :=
  [renderDate c.date, renderDec c.open_, renderDec c.high,
   renderDec c.low, renderDec c.close, renderNat c.volume]

def csvOfSeries (s : List Candle) : CsvFile :=
  ⟨stdHeader, s.map renderRow⟩

/-- `df.to_csv(p, index=False)`: create or overwrite the file at `p`. -/
def persistTo (fs : FileSystem) (p : Str) (s : List Candle) : FileSystem :=
  fun q => if q = p then some (csvOfSeries s) else fs q

/-- Position of a column name in the header (`df['Date']` lookup). -/
def findCol (name : Str) : List Str → Option Nat
  | [] => none
  | h :: t => if h = name then some 0 else (findCol name t).map (· + 1)

/-- Cell `i` of a row (defaulting to the empty cell, which no parser
accepts, for ragged rows pandas would not produce). -/
def cellAt : Nat → List Str → Str
  | _, [] => []
  | 0, c :: _ => c
  | i + 1, _ :: r => cellAt i r

/-- Outcome of `load_usdjpy_data`.  `notFound` is the caught
`FileNotFoundError` path (`return None`).  `raisedError` is an
exception the function does NOT catch (missing `Date` column raising
`KeyError`, or `pd.to_datetime` failing): the invocation produces no
result.  `ok f dates` is the returned DataFrame: the file's columns
with the `Date` column replaced by its parsed dates. -/
inductive LoadResult where
  | notFound : LoadResult
  | raisedError : LoadResult
  | ok : CsvFile → List Date → LoadResult
deriving DecidableEq, Repr

/-- Embedding of `load_usdjpy_data` (src/data.py lines 103-110):
`pd.read_csv`, then `df['Date'] = pd.to_datetime(df['Date'])`, with
only `FileNotFoundError` caught.  No schema validation is performed
beyond the implicit need for a parseable `Date` column. -/
def loadUsdjpyData (fs : FileSystem) (p : Str) : LoadResult :=
  match fs p with
  | none => .notFound
  | some f =>
    match findCol dateColName f.header with
    | none => .raisedError
    | some i =>
      match mapOpt parseDate (f.rows.map (cellAt i)) with
      | none => .raisedError
      | some dates => .ok f dates

/-- Series whose dates are representable in a date cell (all Series
the pipeline itself builds satisfy this, by `parseDate_valid`). -/
def validSeries (s : List Candle) : Prop := ∀ c ∈ s, c.date.valid

instance (s : List Candle) : Decidable (validSeries s) := by
  unfold validSeries
  infer_instance

/-! ### Lemmas about `mapOpt` -/

theorem mapOpt_some_of_forall {α β : Type} {f : α → Option β} :
    ∀ {l : List α}, (∀ a ∈ l, (f a).isSome = true) → ∃ bs, mapOpt f l = some bs := by
  intro l
  induction l with
  | nil => intro _; exact ⟨[], rfl⟩
  | cons a t ih =>
    intro h
    obtain ⟨bs, hbs⟩ := ih (fun x hx => h x (List.mem_cons_of_mem a hx))
    have ha := h a (List.mem_cons_self a t)
    obtain ⟨b, hb⟩ := Option.isSome_iff_exists.mp ha
    refine ⟨b :: bs, ?_⟩
    unfold mapOpt
    rw [hb, hbs]

theorem mapOpt_forall₂ {α β : Type} {f : α → Option β} :
    ∀ {l : List α} {bs : List β}, mapOpt f l = some bs →
      List.Forall₂ (fun a b => f a = some b) l bs := by
  intro l
  induction l with
  | nil =>
    intro bs h
    unfold mapOpt at h
    cases h
    exact List.Forall₂.nil
  | cons a t ih =>
    intro bs h
    unfold mapOpt at h
    cases hfa : f a with
    | none => rw [hfa] at h; exact absurd h (by simp)
    | some b =>
      rw [hfa] at h
      cases hmt : mapOpt f t with
      | none => rw [hmt] at h; exact absurd h (by simp)
      | some bs' =>
        rw [hmt] at h
        simp only [Option.some.injEq] at h
        subst h
        exact List.Forall₂.cons hfa (ih hmt)

theorem mem_right_of_forall₂ {α β : Type} {R : α → β → Prop} :
    ∀ {l : List α} {bs : List β}, List.Forall₂ R l bs → ∀ {b}, b ∈ bs →
      ∃ a ∈ l, R a b := by
  intro l
  induction l with
  | nil =>
    intro bs h b hb
    cases h
    simp at hb
  | cons a t ih =>
    intro bs h b hb
    cases h with
    | cons hab htail =>
      rename_i b' bs'
      rcases List.mem_cons.mp hb with hb | hb
      · subst hb
        exact ⟨a, List.mem_cons_self a t, hab⟩
      · obtain ⟨a', ha', hR⟩ := ih htail hb
        exact ⟨a', List.mem_cons_of_mem a ha', hR⟩

theorem mapOpt_length {α β : Type} {f : α → Option β} {l : List α} {bs : List β}
    (h : mapOpt f l = some bs) : bs.length = l.length :=
  (mapOpt_forall₂ h).length_eq.symm

theorem mapOpt_map {α β γ : Type} {f : β → Option γ} {g : α → β} {k : α → γ} :
    ∀ {l : List α}, (∀ a ∈ l, f (g a) = some (k a)) →
      mapOpt f (l.map g) = some (l.map k) := by
  intro l
  induction l with
  | nil => intro _; rfl
  | cons a t ih =>
    intro h
    have ht := ih (fun x hx => h x (List.mem_cons_of_mem a hx))
    have ha := h a (List.mem_cons_self a t)
    simp only [List.map_cons]
    unfold mapOpt
    rw [ha, ht]

/-! ### Inversion lemmas for the normalization pipeline -/

/-- What a successfully parsed candle looks like: its date is the
parsed (hence in-range) date of the entry's key, and its volume is the
literal zero the code assigns. -/
theorem parseCandle_some {e : Str × RawRecord} {c : Candle}
    (h : parseCandle e = some c) :
    parseDate e.1 = some c.date ∧ c.date.valid ∧ c.volume = 0 := by
  unfold parseCandle at h
  cases hd : parseDate e.1 with
  | none => rw [hd] at h; exact absurd h (by simp)
  | some d =>
    rw [hd] at h
    cases ho : parseDec e.2.open_ with
    | none => rw [ho] at h; exact absurd h (by simp)
    | some o =>
      rw [ho] at h
      cases hh : parseDec e.2.high with
      | none => rw [hh] at h; exact absurd h (by simp)
      | some hi =>
        rw [hh] at h
        cases hl : parseDec e.2.low with
        | none => rw [hl] at h; exact absurd h (by simp)
        | some lo =>
          rw [hl] at h
          cases hc : parseDec e.2.close with
          | none => rw [hc] at h; exact absurd h (by simp)
          | some cl =>
            rw [hc] at h
            simp only [Option.some.injEq] at h
            subst h
            exact ⟨rfl, parseDate_valid hd, rfl⟩

/-- Distinct keys parse to distinct dates: the date column of the
parsed (unsorted) candles has no duplicates. -/
theorem parsed_dates_nodup {raw : RawQuote} {cs : List Candle}
    (hv : validRaw raw) (h : mapOpt parseCandle raw = some cs) :
    (cs.map Candle.date).Nodup := by
  induction raw generalizing cs with
  | nil =>
    unfold mapOpt at h
    cases h
    exact List.nodup_nil
  | cons a t ih =>
    unfold mapOpt at h
    cases hfa : parseCandle a with
    | none => rw [hfa] at h; exact absurd h (by simp)
    | some c =>
      rw [hfa] at h
      cases hmt : mapOpt parseCandle t with
      | none => rw [hmt] at h; exact absurd h (by simp)
      | some cs' =>
        rw [hmt] at h
        simp only [Option.some.injEq] at h
        subst h
        obtain ⟨hnd, hall⟩ := hv
        simp only [List.map_cons, List.nodup_cons] at hnd ⊢
        have hv' : validRaw t :=
          ⟨hnd.2, fun e he => hall e (List.mem_cons_of_mem a he)⟩
        refine ⟨?_, ih hv' hmt⟩
        intro hmem
        obtain ⟨c', hc', hdeq⟩ := List.exists_of_mem_map hmem
        obtain ⟨e, he, hpe⟩ := mem_right_of_forall₂ (mapOpt_forall₂ hmt) hc'
        have h₁ := (parseCandle_some hpe).1
        have h₂ := (parseCandle_some hfa).1
        rw [hdeq] at h₁
        have : e.1 = a.1 := parseDate_inj h₁ h₂
        exact hnd.1 (this ▸ List.mem_map_of_mem Prod.fst he)

/-- Everything in a normalized series came from some raw entry, has an
in-range date, and has zero volume. -/
theorem normalizeRaw_mem_inv {raw : RawQuote} {s : List Candle}
    (h : normalizeRaw raw = some s) :
    ∀ c ∈ s, c.date.valid ∧ c.volume = 0 ∧ ∃ e ∈ raw, parseCandle e = some c := by
  intro c hc
  have hne : raw ≠ [] := by
    intro h0
    subst h0
    simp [normalizeRaw] at h
  unfold normalizeRaw at h
  rw [if_neg hne] at h
  cases hm : mapOpt parseCandle raw with
  | none => rw [hm] at h; exact absurd h (by simp)
  | some cs =>
    rw [hm] at h
    simp only [Option.map_some', Option.some.injEq] at h
    subst h
    have hmem : c ∈ cs := (List.perm_insertionSort candleLe cs).mem_iff.mp hc
    obtain ⟨e, he, hpe⟩ := mem_right_of_forall₂ (mapOpt_forall₂ hm) hmem
    have := parseCandle_some hpe
    exact ⟨this.2.1, this.2.2, e, he, hpe⟩

/-- Strict ascending order of the normalized output (sortedness and
absence of duplicate dates in one). -/
theorem normalizeRaw_pairwise_lt {raw : RawQuote} {s : List Candle}
    (hv : validRaw raw) (h : normalizeRaw raw = some s) :
    s.Pairwise (fun a b => dateKey a.date < dateKey b.date) := by
  have hinv := normalizeRaw_mem_inv h
  have hne : raw ≠ [] := by
    intro h0
    subst h0
    simp [normalizeRaw] at h
  unfold normalizeRaw at h
  rw [if_neg hne] at h
  cases hm : mapOpt parseCandle raw with
  | none => rw [hm] at h; exact absurd h (by simp)
  | some cs =>
    rw [hm] at h
    simp only [Option.map_some', Option.some.injEq] at h
    subst h
    have hsorted : List.Pairwise candleLe (List.insertionSort candleLe cs) :=
      List.sorted_insertionSort candleLe cs
    have hperm : List.Perm (List.insertionSort candleLe cs) cs :=
      List.perm_insertionSort candleLe cs
    have hnd : ((List.insertionSort candleLe cs).map Candle.date).Nodup :=
      ((hperm.map Candle.date).nodup_iff).mpr (parsed_dates_nodup hv hm)
    have hne : (List.insertionSort candleLe cs).Pairwise
        (fun a b => a.date ≠ b.date) := List.pairwise_map.mp hnd
    have hand := hsorted.and hne
    refine List.Pairwise.imp_of_mem ?_ hand
    intro a b ha hb hab
    obtain ⟨hle, hnedate⟩ := hab
    rcases Nat.lt_or_ge (dateKey a.date) (dateKey b.date) with hlt | hge
    · exact hlt
    · exfalso
      have hkeyeq : dateKey a.date = dateKey b.date := Nat.le_antisymm hle hge
      exact hnedate (dateKey_inj (hinv a ha).1 (hinv b hb).1 hkeyeq)

/-- A successful normalization converts every entry: the output has
exactly as many candles as the payload has keys (no partial series). -/
theorem normalizeRaw_length {raw : RawQuote} {s : List Candle}
    (h : normalizeRaw raw = some s) : s.length = raw.length := by
  have hne : raw ≠ [] := by
    intro h0
    subst h0
    simp [normalizeRaw] at h
  unfold normalizeRaw at h
  rw [if_neg hne] at h
  cases hm : mapOpt parseCandle raw with
  | none => rw [hm] at h; exact absurd h (by simp)
  | some cs =>
    rw [hm] at h
    simp only [Option.map_some', Option.some.injEq] at h
    subst h
    rw [(List.perm_insertionSort candleLe cs).length_eq]
    exact mapOpt_length hm

/-- The strict ordering on candles behind "no duplicate dates":
ascending date keys with no ties. -/
def candleLt (a b : Candle) : Prop := dateKey a.date < dateKey b.date

instance : DecidableRel candleLt := fun a b => Nat.decLt (dateKey a.date) (dateKey b.date)

instance : IsAntisymm Candle candleLt :=
  ⟨fun _ _ h₁ h₂ => absurd h₂ (Nat.lt_asymm h₁)⟩

/-- Ascending order plus distinct dates upgrades to strictly
ascending date keys (for in-range dates). -/
theorem pairwise_lt_of_sorted_nodup {l : List Candle}
    (hval : ∀ c ∈ l, c.date.valid)
    (hs : List.Pairwise candleLe l) (hnd : (l.map Candle.date).Nodup) :
    List.Pairwise candleLt l := by
  have hne : l.Pairwise (fun a b => a.date ≠ b.date) := List.pairwise_map.mp hnd
  refine List.Pairwise.imp_of_mem ?_ (hs.and hne)
  intro a b ha hb hab
  obtain ⟨hle, hnedate⟩ := hab
  rcases Nat.lt_or_ge (dateKey a.date) (dateKey b.date) with hlt | hge
  · exact hlt
  · exact absurd (dateKey_inj (hval a ha) (hval b hb) (Nat.le_antisymm hle hge))
      hnedate

/-- Equation lemma: load succeeds when the file is present, the `Date`
column is found and all its cells parse. -/
theorem load_eq_ok {fs : FileSystem} {p : Str} {f : CsvFile} {i : Nat}
    {dates : List Date} (hf : fs p = some f)
    (hi : findCol dateColName f.header = some i)
    (hd : mapOpt parseDate (f.rows.map (cellAt i)) = some dates) :
    loadUsdjpyData fs p = .ok f dates := by
  unfold loadUsdjpyData
  simp only [hf, hi, hd]

/-- Equation lemma: with the file present but no `Date` column, the
`KeyError` escapes the function (only `FileNotFoundError` is caught). -/
theorem load_eq_raised_of_no_date_col {fs : FileSystem} {p : Str} {f : CsvFile}
    (hf : fs p = some f) (hi : findCol dateColName f.header = none) :
    loadUsdjpyData fs p = .raisedError := by
  unfold loadUsdjpyData
  simp only [hf, hi]

/-- Equation lemma: with the file present but an unparseable date cell,
the `to_datetime` exception escapes the function. -/
theorem load_eq_raised_of_bad_dates {fs : FileSystem} {p : Str} {f : CsvFile}
    {i : Nat} (hf : fs p = some f) (hi : findCol dateColName f.header = some i)
    (hd : mapOpt parseDate (f.rows.map (cellAt i)) = none) :
    loadUsdjpyData fs p = .raisedError := by
  unfold loadUsdjpyData
  simp only [hf, hi, hd]

/-- A CSV data row determines its candle (for representable dates):
componentwise injectivity of the six rendered cells. -/
theorem renderRow_inj {c c' : Candle} (h₁ : c.date.valid) (h₂ : c'.date.valid)
    (h : renderRow c = renderRow c') : c = c' := by
  obtain ⟨d, o, hi, lo, cl, v⟩ := c
  obtain ⟨d', o', hi', lo', cl', v'⟩ := c'
  simp only [renderRow, List.cons.injEq, and_true] at h
  obtain ⟨hd, ho, hhi, hlo, hcl, hv⟩ := h
  simp only [Candle.mk.injEq]
  exact ⟨renderDate_inj h₁ h₂ hd, renderDec_inj ho, renderDec_inj hhi,
    renderDec_inj hlo, renderDec_inj hcl, renderNat_inj hv⟩

/-- The rows of the persisted file determine the series. -/
theorem map_renderRow_inj : ∀ {s s' : List Candle}, validSeries s → validSeries s' →
    s.map renderRow = s'.map renderRow → s = s' := by
  intro s
  induction s with
  | nil =>
    intro s' _ _ h
    cases s' with
    | nil => rfl
    | cons c t => simp at h
  | cons c t ih =>
    intro s' hv hv' h
    cases s' with
    | nil => simp at h
    | cons c' t' =>
      simp only [List.map_cons, List.cons.injEq] at h
      have hc : c = c' :=
        renderRow_inj (hv c (List.mem_cons_self c t))
          (hv' c' (List.mem_cons_self c' t')) h.1
      have ht : t = t' :=
        ih (fun x hx => hv x (List.mem_cons_of_mem c hx))
          (fun x hx => hv' x (List.mem_cons_of_mem c' hx)) h.2
      rw [hc, ht]

/-! ### Concrete sample data (used by the witness theorems) -/

/-- The spec's worked example plus a second, later day, listed out of
order to exercise the sort. -/
def sampleRaw : RawQuote :=
  [(['2', '0', '2', '4', '-', '0', '1', '-', '0', '8'],
    ⟨['1', '4', '4', '.', '5'], ['1', '4', '5', '.', '0'],
     ['1', '4', '4', '.', '0'], ['1', '4', '4', '.', '9']⟩),
   (['2', '0', '2', '4', '-', '0', '1', '-', '0', '5'],
    ⟨['1', '4', '8', '.', '3', '0'], ['1', '4', '8', '.', '9', '0'],
     ['1', '4', '8', '.', '1', '0'], ['1', '4', '8', '.', '7', '5']⟩)]

/-- `normalizeRaw sampleRaw`, written out. -/
def sampleSeries : List Candle :=
  [⟨⟨2024, 1, 5⟩, ⟨14830, 2⟩, ⟨14890, 2⟩, ⟨14810, 2⟩, ⟨14875, 2⟩, 0⟩,
   ⟨⟨2024, 1, 8⟩, ⟨1445, 1⟩, ⟨1450, 1⟩, ⟨1440, 1⟩, ⟨1449, 1⟩, 0⟩]

def samplePath : Str := ['d', 'a', 't', 'a']

def emptyFs : FileSystem := fun _ => none

def respErr : ApiResponse := ⟨some ['e'], some ['n'], none⟩

def respNote : ApiResponse := ⟨none, some ['n'], none⟩

def respUnexpected : ApiResponse := ⟨none, none, none⟩

def respOk : ApiResponse := ⟨none, none, some sampleRaw⟩

/-- A file whose schema does not match the expected column set (extra
`Foo` column, no price columns) but which still has a parseable `Date`
column. -/
def mismatchedFile : CsvFile :=
  ⟨[['D', 'a', 't', 'e'], ['F', 'o', 'o']],
   [[['2', '0', '2', '4', '-', '0', '1', '-', '0', '5'], ['x']]]⟩

def mismatchedFs : FileSystem :=
  fun q => if q = samplePath then some mismatchedFile else none

/-- A file with no `Date` column at all. -/
def noDateFile : CsvFile := ⟨[['F', 'o', 'o']], [[['1']]]⟩

def noDateFs : FileSystem :=
  fun q => if q = samplePath then some noDateFile else none

/-! ### The claims -/

/-- C1 counterexample: the claim as stated fails at the empty
RawQuote.  The empty mapping is a valid RawQuote (distinctness and
parseability hold vacuously, and the spec itself demands it be
normalizable), yet the code errors there — the five-name column
assignment raises `ValueError` on the one-column frame built from an
empty dict, caught to `return None` — so no Series of length 0 is
produced. -/
theorem normalizeRaw_valid_spec_counterexample :
    validRaw ([] : RawQuote) ∧ normalizeRaw [] = none :=
  ⟨by decide, rfl⟩

/-- C1 (amended to nonempty inputs): for every nonempty valid RawQuote
(a mapping: distinct `YYYY-MM-DD` keys, every record parseable),
`normalizeRaw` produces a Series whose length equals the number of
distinct date keys (= the number of keys), with strictly increasing
date keys — which is at once "sorted ascending" and "no duplicate
dates".  The empty RawQuote is excluded: there the code errors instead
(see `normalizeRaw_valid_spec_counterexample`). -/
theorem normalizeRaw_valid_spec (raw : RawQuote) (hne : raw ≠ [])
    (hv : validRaw raw) :
    ∃ s, normalizeRaw raw = some s ∧ s.length = raw.length ∧
      s.Pairwise (fun a b => dateKey a.date < dateKey b.date) := by
  obtain ⟨cs, hcs⟩ := mapOpt_some_of_forall hv.2
  have hns : normalizeRaw raw = some (List.insertionSort candleLe cs) := by
    unfold normalizeRaw
    rw [if_neg hne, hcs]
    rfl
  exact ⟨_, hns, normalizeRaw_length hns, normalizeRaw_pairwise_lt hv hns⟩

theorem normalizeRaw_valid_spec_witness :
    ∃ s, normalizeRaw sampleRaw = some s ∧ s.length = sampleRaw.length ∧
      s.Pairwise (fun a b => dateKey a.date < dateKey b.date) :=
  normalizeRaw_valid_spec sampleRaw (by decide) (by decide)

/-- C4 (code bug): the spec says normalizing an empty RawQuote yields
an empty Series and not an error, but the code errors on exactly that
input: `pd.DataFrame.from_dict({}, orient='index')` builds a frame
with no columns, `reset_index` leaves one, and the assignment of the
five column names raises `ValueError`, which the enclosing `except`
converts to `return None`.  The faithful embedding evaluates to `none`
(no Series) at the failing input. -/
theorem normalizeRaw_empty : normalizeRaw [] = none := rfl

/-- C9: every candle of every series `normalizeRaw` produces has zero
volume (the code writes the constant column `df['Volume'] = 0`). -/
theorem normalizeRaw_volume_zero (raw : RawQuote) (s : List Candle)
    (h : normalizeRaw raw = some s) : ∀ c ∈ s, c.volume = 0 :=
  fun c hc => ((normalizeRaw_mem_inv h) c hc).2.1

theorem normalizeRaw_volume_zero_witness :
    normalizeRaw sampleRaw = some sampleSeries ∧
      ∀ c ∈ sampleSeries, c.volume = 0 :=
  ⟨by decide, normalizeRaw_volume_zero sampleRaw sampleSeries (by decide)⟩

/-- C3: the four-way classification of an upstream response, in the
code's order (src/data.py lines 33-48): an `Error Message` field gives
the upstream-error outcome, else a `Note` field gives the rate-limited
outcome, else a missing time-series field gives the
unexpected-response outcome, else the payload is normalized as a
RawQuote (whose own failure is the only remaining non-`ok` outcome).
Each error outcome is a distinct constructor from `ok _`, so no Series
is produced there. -/
theorem fetch_classification (r : ApiResponse) :
    (∀ m, r.errorMessage = some m →
      fetchUsdjpyData r = FetchResult.upstreamError)
  ∧ (∀ n, r.errorMessage = none → r.note = some n →
      fetchUsdjpyData r = FetchResult.rateLimitedError)
  ∧ (r.errorMessage = none → r.note = none → r.timeSeries = none →
      fetchUsdjpyData r = FetchResult.unexpectedResponseError)
  ∧ (∀ raw, r.errorMessage = none → r.note = none → r.timeSeries = some raw →
      (∃ s, normalizeRaw raw = some s ∧ fetchUsdjpyData r = FetchResult.ok s) ∨
        (normalizeRaw raw = none ∧
          fetchUsdjpyData r = FetchResult.malformedError)) := by
  obtain ⟨em, nt, ts⟩ := r
  refine ⟨?_, ?_, ?_, ?_⟩
  · rintro m rfl
    rfl
  · rintro n rfl rfl
    rfl
  · rintro rfl rfl rfl
    rfl
  · rintro raw rfl rfl rfl
    cases hn : normalizeRaw raw with
    | some s =>
      left
      refine ⟨s, rfl, ?_⟩
      simp only [fetchUsdjpyData]
      rw [hn]
    | none =>
      right
      refine ⟨rfl, ?_⟩
      simp only [fetchUsdjpyData]
      rw [hn]

theorem fetch_classification_witness :
    fetchUsdjpyData respErr = FetchResult.upstreamError
  ∧ fetchUsdjpyData respNote = FetchResult.rateLimitedError
  ∧ fetchUsdjpyData respUnexpected = FetchResult.unexpectedResponseError
  ∧ (∃ s, normalizeRaw sampleRaw = some s ∧
      fetchUsdjpyData respOk = FetchResult.ok s) := by
  refine ⟨(fetch_classification respErr).1 ['e'] rfl,
    (fetch_classification respNote).2.1 ['n'] rfl rfl,
    (fetch_classification respUnexpected).2.2.1 rfl rfl rfl, ?_⟩
  rcases (fetch_classification respOk).2.2.2 sampleRaw rfl rfl rfl with h | h
  · exact h
  · exact absurd h.1 (by decide)

/-- C10: the checks are ordered, so with both an `Error Message` field
and a `Note` field present, the result is the upstream-error outcome
and not the rate-limited one. -/
theorem fetch_error_precedence (r : ApiResponse)
    (h₁ : r.errorMessage.isSome = true) (h₂ : r.note.isSome = true) :
    fetchUsdjpyData r = FetchResult.upstreamError ∧
      fetchUsdjpyData r ≠ FetchResult.rateLimitedError := by
  obtain ⟨em, nt, ts⟩ := r
  obtain ⟨m, hm⟩ := Option.isSome_iff_exists.mp h₁
  subst hm
  have he : fetchUsdjpyData ⟨some m, nt, ts⟩ = FetchResult.upstreamError := rfl
  refine ⟨he, ?_⟩
  rw [he]
  simp

theorem fetch_error_precedence_witness :
    fetchUsdjpyData respErr = FetchResult.upstreamError ∧
      fetchUsdjpyData respErr ≠ FetchResult.rateLimitedError :=
  fetch_error_precedence respErr (by decide) (by decide)

/-- C7: loading from a path with no file yields the (caught)
not-found outcome and no Series. -/
theorem load_not_found (fs : FileSystem) (p : Str) (h : fs p = none) :
    loadUsdjpyData fs p = LoadResult.notFound := by
  unfold loadUsdjpyData
  simp only [h]

theorem load_not_found_witness :
    loadUsdjpyData emptyFs samplePath = LoadResult.notFound :=
  load_not_found emptyFs samplePath rfl

/-- C8: every error is terminal for the invocation and no partial
Series is ever returned: a fetch either returns the complete
normalization of the full payload or no series at all, and a load
either returns the complete file with every date row parsed or no
result at all.  (The code has no retry construct; each invocation
makes one request and one read, which is what the single-response,
single-file functions model.) -/
theorem errors_terminal (r : ApiResponse) (fs : FileSystem) (p : Str) :
    ((∃ raw s, r.timeSeries = some raw ∧ normalizeRaw raw = some s ∧
        s.length = raw.length ∧ fetchUsdjpyData r = FetchResult.ok s)
      ∨ (∀ s, fetchUsdjpyData r ≠ FetchResult.ok s))
  ∧ ((∃ f dates, fs p = some f ∧ dates.length = f.rows.length ∧
        loadUsdjpyData fs p = LoadResult.ok f dates)
      ∨ (∀ f dates, loadUsdjpyData fs p ≠ LoadResult.ok f dates)) := by
  constructor
  · obtain ⟨em, nt, ts⟩ := r
    cases em with
    | some m =>
      right
      intro s
      simp [fetchUsdjpyData]
    | none =>
      cases nt with
      | some n =>
        right
        intro s
        simp [fetchUsdjpyData]
      | none =>
        cases ts with
        | none =>
          right
          intro s
          simp [fetchUsdjpyData]
        | some raw =>
          cases hn : normalizeRaw raw with
          | none =>
            right
            intro s
            simp [fetchUsdjpyData, hn]
          | some s =>
            left
            refine ⟨raw, s, rfl, hn, normalizeRaw_length hn, ?_⟩
            simp only [fetchUsdjpyData]
            rw [hn]
  · cases hf : fs p with
    | none =>
      right
      intro f dates
      simp [loadUsdjpyData, hf]
    | some f =>
      cases hi : findCol dateColName f.header with
      | none =>
        right
        intro f' dates
        simp [loadUsdjpyData, hf, hi]
      | some i =>
        cases hd : mapOpt parseDate (f.rows.map (cellAt i)) with
        | none =>
          right
          intro f' dates
          simp [loadUsdjpyData, hf, hi, hd]
        | some dates =>
          left
          refine ⟨f, dates, rfl, ?_, load_eq_ok hf hi hd⟩
          rw [mapOpt_length hd, List.length_map]

/-- C2: persist-then-load round trip.  Persisting a valid Series and
loading it back from the same destination succeeds and reproduces the
Series exactly: the loaded frame is exactly the persisted rendering of
`s` with its `Date` column parsed back to `s`'s dates (dates exact),
and the rendering itself is injective on valid Series (so the
persisted decimal cells determine the prices and volumes exactly —
the embedding's exact-decimal counterpart of "within the numeric
representation's precision", since pandas' float repr round-trips
exactly). -/
theorem persist_load_round_trip (fs : FileSystem) (p : Str) (s : List Candle)
    (hv : validSeries s) :
    loadUsdjpyData (persistTo fs p s) p
      = LoadResult.ok (csvOfSeries s) (s.map Candle.date)
  ∧ (∀ s', validSeries s' → csvOfSeries s' = csvOfSeries s → s' = s) := by
  constructor
  · apply @load_eq_ok (persistTo fs p s) p (csvOfSeries s) 0 (s.map Candle.date)
    · unfold persistTo
      rw [if_pos rfl]
    · rfl
    · show mapOpt parseDate ((s.map renderRow).map (cellAt 0))
        = some (s.map Candle.date)
      rw [List.map_map]
      exact mapOpt_map (fun c hc => parseDate_renderDate (hv c hc))
  · intro s' hv' heq
    exact map_renderRow_inj hv' hv (congrArg CsvFile.rows heq)

theorem persist_load_round_trip_witness :
    loadUsdjpyData (persistTo emptyFs samplePath sampleSeries) samplePath
      = LoadResult.ok (csvOfSeries sampleSeries) (sampleSeries.map Candle.date)
  ∧ (∀ s', validSeries s' →
      csvOfSeries s' = csvOfSeries sampleSeries → s' = sampleSeries) :=
  persist_load_round_trip emptyFs samplePath sampleSeries (by decide)

/-- C5: the sort of `normalizeRaw`, read as the spec's stable sort.
First conjunct: the claim's stability statement itself — any two
output entries with equal dates stand in the same relative order as
their source entries in the input; it holds because, the input being a
mapping, equal dates cannot occur in the output at all (the antecedent
is impossible, which the strictly increasing date keys of
`normalizeRaw_pairwise_lt` make precise).  Second conjunct: order
uniqueness — ANY ascending arrangement of the parsed candles equals
the produced series, so the output does not depend on which sorting
algorithm (stable or not) the dataframe library uses: the code's
unstable default quicksort and the spec's stable sort coincide on
every valid input. -/
theorem normalizeRaw_sort_stable (raw : RawQuote) (s : List Candle)
    (hv : validRaw raw) (hn : normalizeRaw raw = some s) :
    (∀ i j (hi : i < s.length) (hj : j < s.length), i < j →
        (s.get ⟨i, hi⟩).date = (s.get ⟨j, hj⟩).date →
        ∃ p q, ∃ (hp : p < raw.length) (hq : q < raw.length), p < q ∧
          parseCandle (raw.get ⟨p, hp⟩) = some (s.get ⟨i, hi⟩) ∧
          parseCandle (raw.get ⟨q, hq⟩) = some (s.get ⟨j, hj⟩))
  ∧ (∀ t u, mapOpt parseCandle raw = some t → List.Perm t u →
      List.Pairwise candleLe u → u = s) := by
  have hpl := normalizeRaw_pairwise_lt hv hn
  constructor
  · intro i j hi hj hij hdeq
    exfalso
    have hlt := (List.pairwise_iff_get.mp hpl) ⟨i, hi⟩ ⟨j, hj⟩ hij
    rw [hdeq] at hlt
    exact Nat.lt_irrefl _ hlt
  · intro t u ht hperm hsorted
    have hne : raw ≠ [] := by
      intro h0
      subst h0
      simp [normalizeRaw] at hn
    unfold normalizeRaw at hn
    rw [if_neg hne, ht] at hn
    simp only [Option.map_some', Option.some.injEq] at hn
    have hvalu : ∀ c ∈ u, c.date.valid := by
      intro c hc
      have hct : c ∈ t := hperm.mem_iff.mpr hc
      obtain ⟨e, he, hpe⟩ := mem_right_of_forall₂ (mapOpt_forall₂ ht) hct
      exact (parseCandle_some hpe).2.1
    have hndu : (u.map Candle.date).Nodup :=
      ((hperm.map Candle.date).nodup_iff).mp (parsed_dates_nodup hv ht)
    have hplu : List.Pairwise candleLt u :=
      pairwise_lt_of_sorted_nodup hvalu hsorted hndu
    have hperm_us : List.Perm u s := by
      rw [← hn]
      exact hperm.symm.trans (List.perm_insertionSort candleLe t).symm
    exact List.eq_of_perm_of_sorted hperm_us hplu (hn ▸ hpl)

theorem normalizeRaw_sort_stable_witness :
    (∀ i j (hi : i < sampleSeries.length) (hj : j < sampleSeries.length),
        i < j →
        (sampleSeries.get ⟨i, hi⟩).date = (sampleSeries.get ⟨j, hj⟩).date →
        ∃ p q, ∃ (hp : p < sampleRaw.length) (hq : q < sampleRaw.length),
          p < q ∧
          parseCandle (sampleRaw.get ⟨p, hp⟩) = some (sampleSeries.get ⟨i, hi⟩) ∧
          parseCandle (sampleRaw.get ⟨q, hq⟩) = some (sampleSeries.get ⟨j, hj⟩))
  ∧ (∀ t u, mapOpt parseCandle sampleRaw = some t → List.Perm t u →
      List.Pairwise candleLe u → u = sampleSeries) :=
  normalizeRaw_sort_stable sampleRaw sampleSeries (by decide) (by decide)

/-- C6 counterexample: the claim says every existing file whose schema
does not match the expected column set fails to load with
`MalformedFileError`.  But `load_usdjpy_data` performs no schema
validation: this file's schema (columns `Date, Foo`) does not match
`[Date, Open, High, Low, Close, Volume]`, yet the load succeeds and
returns it. -/
theorem load_schema_mismatch_counterexample :
    mismatchedFs samplePath = some mismatchedFile
  ∧ mismatchedFile.header ≠ stdHeader
  ∧ loadUsdjpyData mismatchedFs samplePath
      = LoadResult.ok mismatchedFile [⟨2024, 1, 5⟩] := by
  decide

/-- C6 amended: load performs no schema validation at all.  With the
file present, it fails — by an uncaught exception, not a dedicated
`MalformedFileError` — exactly when the `Date` column is missing
(`KeyError`) or some of its cells do not parse (`to_datetime`
raises); in every other case it returns the file's frame unchanged,
whatever its schema. -/
theorem load_malformed_amended (fs : FileSystem) (p : Str) (f : CsvFile)
    (hf : fs p = some f) :
    (findCol dateColName f.header = none →
      loadUsdjpyData fs p = LoadResult.raisedError)
  ∧ (∀ i, findCol dateColName f.header = some i →
      mapOpt parseDate (f.rows.map (cellAt i)) = none →
      loadUsdjpyData fs p = LoadResult.raisedError)
  ∧ (∀ i dates, findCol dateColName f.header = some i →
      mapOpt parseDate (f.rows.map (cellAt i)) = some dates →
      loadUsdjpyData fs p = LoadResult.ok f dates) :=
  ⟨fun hi => load_eq_raised_of_no_date_col hf hi,
   fun _ hi hd => load_eq_raised_of_bad_dates hf hi hd,
   fun _ _ hi hd => load_eq_ok hf hi hd⟩

theorem load_malformed_amended_witness :
    loadUsdjpyData noDateFs samplePath = LoadResult.raisedError :=
  (load_malformed_amended noDateFs samplePath noDateFile (by decide)).1 (by decide)
